import Mathlib

/-!
Verification of the generalized task-arithmetic merge core
(`mergekit/merge_methods/generalized_task_arithmetic.py`).

Shallow embedding conventions:
* Tensors are 2-D matrices of exact rationals (`Mat := List (List ℚ)`); all the
  numeric dtypes of the source collapse to `ℚ`, so dtype casts such as
  `.to(base.dtype)` are the identity.  The claims under study are about exact
  arithmetic, shape policy and control flow, not floating-point rounding.
* Elementwise torch operations on same-shaped tensors become `List.zipWith` /
  `List.map` on rows.  The one subtraction that can see unequal shapes (the
  embed path of `get_task_vectors`, after slicing) is modelled with torch's
  2-D broadcast rule (`bsub`): axes of size 1 broadcast, any other mismatch
  is a runtime error (`Option.none`).
* `tensors` (a python dict keyed by model) is an association list
  `List (ℕ × Mat)` iterated in order, like `list(tensors.keys())`.
* The external primitives `sparsify` and `get_tall_mask` (from
  `mergekit.sparsify`, outside the shown core) are parameters of `execute`,
  matching the spec's treatment of them as external numeric primitives.
* Fallible python code (KeyError, torch shape errors, `raise RuntimeError`)
  returns `Option`.
-/

/-- A 2-D tensor of exact rationals: a list of rows. -/
abbrev Mat := List (List ℚ)

/-- A 2-D boolean tensor (torch `bool` tensor). -/
abbrev BMat := List (List Bool)

/-- Elementwise binary operation on two matrices (torch broadcasting-free
elementwise op on same-shaped operands; `zipWith` truncates on mismatch). -/
def mzip (f : ℚ → ℚ → ℚ) (a b : Mat) : Mat :=
  List.zipWith (List.zipWith f) a b

/-- Elementwise unary operation on a matrix. -/
def mmap (f : ℚ → ℚ) (a : Mat) : Mat :=
  a.map (List.map f)

/-- Elementwise comparison of two matrices producing a boolean tensor
(torch `==` on tensors). -/
def mzipB (f : ℚ → ℚ → Bool) (a b : Mat) : BMat :=
  List.zipWith (List.zipWith f) a b

/-- The element of a matrix at row `r`, column `c` (0 outside the range). -/
def mAt (m : Mat) (r c : ℕ) : ℚ :=
  (m.getD r []).getD c 0

/-- The element of a boolean matrix at row `r`, column `c`. -/
def bAt (m : BMat) (r c : ℕ) : Bool :=
  (m.getD r []).getD c false

/-- The entry of a stack of boolean matrices for model `i` at `(r, c)`. -/
def tAt (s : List BMat) (i r c : ℕ) : Bool :=
  bAt (s.getD i []) r c

/-- Shape of a (possibly ragged) matrix: the list of row lengths.  Two
rectangular matrices have equal `shapeL` iff they have equal torch shape. -/
def shapeL (m : Mat) : List ℕ :=
  m.map List.length

/-- `m` is a rectangular `R × C` matrix (numeric or boolean). -/
def rect {α : Type} (R C : ℕ) (m : List (List α)) : Prop :=
  m.length = R ∧ ∀ row ∈ m, row.length = C

/-- `x[: r, : c]`: the leading sub-block of a matrix (torch slicing). -/
def trunc (m : Mat) (r c : ℕ) : Mat :=
  (m.take r).map (List.take c)

/-- One axis of the torch/numpy broadcast rule: two sizes are compatible
when they are equal or when either is 1, and the result size is the other
one; incompatible sizes are a runtime error. -/
def broadcastDim (a b : ℕ) : Option ℕ :=
  if a = b then some a
  else if a = 1 then some b
  else if b = 1 then some a
  else none

/-- The element a 2-D tensor contributes at `(r, c)` of a broadcast result:
an axis of size 1 is indexed at 0 (the row/column is repeated). -/
def bcastAt (m : Mat) (r c : ℕ) : ℚ :=
  mAt m (if m.length = 1 then 0 else r)
    (if (m.headD []).length = 1 then 0 else c)

/-- `x - b` on 2-D tensors with torch's broadcasting: `none` when the
shapes are incompatible (a torch RuntimeError).  For equal-shaped
rectangular tensors this is plain elementwise subtraction
(`bsub_eq_mzip_of_rect`). -/
def bsub (x b : Mat) : Option Mat :=
  match broadcastDim x.length b.length,
      broadcastDim (x.headD []).length (b.headD []).length with
  | some rr, some cc =>
    some ((List.range rr).map (fun r =>
      (List.range cc).map (fun c => bcastAt x r c - bcastAt b r c)))
  | _, _ => none

/-- Elementwise sum over the leading (stack) dimension: `t.sum(dim=0)` for a
stack of matrices. -/
def stackSum : List Mat → Mat
  | [] => []
  | [m] => m
  | m :: n :: rest => mzip (· + ·) m (stackSum (n :: rest))

/-- `torch.sign` on an exact rational: −1, 0 or 1. -/
def qsign (q : ℚ) : ℚ :=
  if q < 0 then -1 else if q = 0 then 0 else 1

/-- The two mask storage dtypes reachable in `GTATask.execute`:
`torch.int8` when `int8_mask` is set, otherwise the base tensor's own
(floating) dtype, which `ℚ` stands in for. -/
inductive MaskDtype
  | int8
  | base
deriving DecidableEq

/-- Truncation of a rational toward zero (the rounding used by a
float-to-integer tensor cast). -/
def qtruncInt (q : ℚ) : ℤ :=
  q.num / q.den

/-- Casting a scalar to a mask dtype: the identity for the base (floating)
dtype, truncate-and-wrap for `int8`. -/
def castDtype : MaskDtype → ℚ → ℚ
  | .int8, q => ((qtruncInt q).bmod 256 : ℤ)
  | .base, q => q

/-- `get_mask(delta, method, mask_dtype)`: sign-consensus mask over a stack of
weighted deltas.  Returns `none` for an unknown method string (the
`raise RuntimeError` branch). -/
def get_mask (delta : List Mat) (method : String) (mask_dtype : MaskDtype) :
    Option (List BMat) :=
  let sign := delta.map (mmap (fun q => castDtype mask_dtype (qsign q)))
  if method = "sum" then
    let sign_weight := stackSum delta
    let majority_sign := mmap
      (fun s => if 0 ≤ s then castDtype mask_dtype 1 * 2 - 1
                else castDtype mask_dtype 0 * 2 - 1) sign_weight
    some (sign.map (fun s => mzipB (fun a b => decide (a = b)) s majority_sign))
  else if method = "count" then
    let majority_sign := mmap
      (fun s => if 0 ≤ s then castDtype mask_dtype 1 * 2 - 1
                else castDtype mask_dtype 0 * 2 - 1) (stackSum sign)
    some (sign.map (fun s => mzipB (fun a b => decide (a = b)) s majority_sign))
  else
    none

/-- The sparsification methods of `mergekit.sparsify.SparsificationMethod`
reachable from the merge configuration (spec §6). -/
inductive SparsificationMethod
  | magnitude
  | magnitude_outliers
  | rank_magnitude_sampling
  | consensus_ta
  | consensus_ties
deriving DecidableEq

/-- The `ConsensusMethod` enum (`count` / `sum`); each member's string value
is what `get_mask` compares against. -/
inductive ConsensusMethod
  | count
  | sum
deriving DecidableEq

/-- The string value of a `ConsensusMethod` member (it is a `str` Enum). -/
def cmName : ConsensusMethod → String
  | .count => "count"
  | .sum => "sum"

/-- Per-model tensor parameters as resolved by the configuration layer.
`weight` is required and `density` defaulted, so both are always present;
the method-conditional extras are present only for the matching method
(`Option`), mirroring the `"gamma" in tv_info`-style membership tests. -/
structure TVParams where
  weight : ℚ
  density : ℚ
  gamma : Option ℚ
  epsilon : Option ℚ
  lambda : Option ℚ
  k : Option ℚ
deriving DecidableEq

/-- A task-vector descriptor: the dict `d` built by `get_task_vectors`
(model, delta, and the per-model tensor parameters copied verbatim). -/
structure TVInfo where
  model : ℕ
  delta : Mat
  weight : ℚ
  density : ℚ
  gamma : Option ℚ
  epsilon : Option ℚ
  lambda : Option ℚ
  k : Option ℚ
deriving DecidableEq

/-- Build a descriptor from a model id, its delta and its parameters. -/
def mkTV (m : ℕ) (d : Mat) (p : TVParams) : TVInfo :=
  { model := m, delta := d, weight := p.weight, density := p.density,
    gamma := p.gamma, epsilon := p.epsilon, lambda := p.lambda, k := p.k }

/-- The diagnostic warnings `get_task_vectors` can emit via `logging.warning`. -/
inductive Warn
  | submatrix (model : ℕ)
  | skipped (model : ℕ)
deriving DecidableEq

/-- The per-model loop body of `get_task_vectors`: walk the tensor map in
order, skip the base model, cast to the base dtype (identity here), handle
shape mismatches (slice to the base's leading sub-block if `is_embed`, else
skip with a warning), and record `delta = x − base`.  When the shapes are
equal the subtraction is plain elementwise; on the embed path the sliced
tensor may still mismatch the base, so the subtraction there carries
torch's 2-D broadcast semantics (`bsub`): a mismatched axis of size 1
broadcasts, any other mismatch is a torch error (`none`). -/
def gtv_go (is_embed : Bool) (base : Mat) (base_model : ℕ) (tp : ℕ → TVParams) :
    List (ℕ × Mat) → Option (List TVInfo × List Warn)
  | [] => some ([], [])
  | (m, x) :: rest =>
    if m = base_model then gtv_go is_embed base base_model tp rest
    else if shapeL x = shapeL base then
      (gtv_go is_embed base base_model tp rest).map
        (fun r => (mkTV m (mzip (· - ·) x base) (tp m) :: r.1, r.2))
    else if is_embed then
      match bsub (trunc x base.length (base.headD []).length) base with
      | some delta =>
        (gtv_go is_embed base base_model tp rest).map
          (fun r => (mkTV m delta (tp m) :: r.1, Warn.submatrix m :: r.2))
      | none => none
    else
      (gtv_go is_embed base base_model tp rest).map
        (fun r => (r.1, Warn.skipped m :: r.2))

/-- `get_task_vectors`: look the base tensor up (KeyError = `none`), then
collect the non-base descriptors and the warnings emitted along the way. -/
def get_task_vectors (is_embed : Bool) (base_model : ℕ)
    (tensors : List (ℕ × Mat)) (tp : ℕ → TVParams) :
    Option (List TVInfo × Mat × List Warn) :=
  match tensors.lookup base_model with
  | none => none
  | some base =>
    (gtv_go is_embed base base_model tp tensors).map
      (fun r => (r.1, base, r.2))

/-- The external `sparsify(delta, density, method, rescale, gamma?, epsilon?)`
primitive, abstracted: any shape of function the kernel might be. -/
abbrev SparsifyFn :=
  Mat → ℚ → SparsificationMethod → Bool → Option ℚ → Option ℚ → Mat

/-- The external `get_tall_mask(delta, lambda, mixed_delta)` primitive,
abstracted. -/
abbrev TallMaskFn := Mat → ℚ → Mat → BMat

/-- The parameters of one merge call (`GTATask` fields plus the method's
`sparsification_method` / `consensus_method`). -/
structure GTAConfig where
  sparsification_method : Option SparsificationMethod
  consensus_method : Option ConsensusMethod
  int8_mask : Bool
  normalize : Bool
  rescale : Bool

/-- The mask dtype chosen in `execute`: `torch.int8` if `int8_mask` else
`base.dtype`. -/
def maskDtypeOf (int8_mask : Bool) : MaskDtype :=
  if int8_mask then .int8 else .base

/-- The pre-aggregation delta stack: if a sparsification method is configured
and is not `consensus_ta`, each descriptor's delta is replaced by
`sparsify(delta, density, method, rescale, extras)`; otherwise the raw deltas
are stacked. -/
def buildDeltas (method : Option SparsificationMethod) (rescale : Bool)
    (sfn : SparsifyFn) (tvs : List TVInfo) : List Mat :=
  match method with
  | some m =>
    if m ≠ SparsificationMethod.consensus_ta then
      tvs.map (fun tv => sfn tv.delta tv.density m rescale tv.gamma tv.epsilon)
    else
      tvs.map (fun tv => tv.delta)
  | none => tvs.map (fun tv => tv.delta)

/-- `deltas * weights` with the weight vector broadcast over both tensor
axes: each model's delta scaled by its weight. -/
def weightedDeltas (deltas : List Mat) (ws : List ℚ) : List Mat :=
  List.zipWith (fun d w => mmap (· * w) d) deltas ws

/-- A boolean as the 0/1 scalar it becomes under tensor arithmetic. -/
def boolToQ (b : Bool) : ℚ := if b then 1 else 0

/-- A boolean matrix as a 0/1 numeric matrix. -/
def maskMat (mk : BMat) : Mat := mk.map (List.map boolToQ)

/-- The per-model summands of `(weighted_deltas * mask).sum(dim=0)`. -/
def mixedSummands (wd : List Mat) (mask : List BMat) : List Mat :=
  List.zipWith (fun d mk => mzip (· * ·) d (maskMat mk)) wd mask

/-- The per-model summands of `(weights * mask).sum(dim=0)`. -/
def divisorSummands (ws : List ℚ) (mask : List BMat) : List Mat :=
  List.zipWith (fun w mk => mmap (w * ·) (maskMat mk)) ws mask

/-- `divisor[divisor == 0] = 1` (masked path). -/
def guardZero (d : Mat) : Mat :=
  mmap (fun q => if q = 0 then 1 else q) d

/-- The literal `1e-8`. -/
def eps8 : ℚ := 1 / 100000000

/-- `divisor[divisor.abs() < 1e-8] = 1` on the scalar divisor of the
unmasked path. -/
def guardEps (q : ℚ) : ℚ :=
  if |q| < eps8 then 1 else q

/-- Sign-consensus aggregation and normalization (`execute` lines 198–214):
with a consensus method, mask the weighted deltas and divide by the guarded
masked weight sum; otherwise plain sums with the `1e-8`-guarded scalar
divisor.  `none` only if `get_mask` rejects the method string. -/
def aggregateStage (cfg : GTAConfig) (tvs : List TVInfo)
    (deltas : List Mat) : Option Mat :=
  let ws := tvs.map (fun tv => tv.weight)
  let wd := weightedDeltas deltas ws
  match cfg.consensus_method with
  | some cm =>
    (get_mask wd (cmName cm) (maskDtypeOf cfg.int8_mask)).map (fun mask =>
      let mixed := stackSum (mixedSummands wd mask)
      let divisor := guardZero (stackSum (divisorSummands ws mask))
      if cfg.normalize then mzip (· / ·) mixed divisor else mixed)
  | none =>
    let mixed := stackSum wd
    let d := guardEps ws.sum
    some (if cfg.normalize then mmap (· / d) mixed else mixed)

/-- The `rank_magnitude_sampling` post-scale: `mixed_delta *= tvs[0]["lambda"]`
(`none` when the descriptor list or the lambda entry is missing — a python
IndexError/KeyError). -/
def lambdaStage (cfg : GTAConfig) (tvs : List TVInfo) (mixed : Mat) :
    Option Mat :=
  if cfg.sparsification_method = some .rank_magnitude_sampling then
    (tvs.head?.bind (fun tv => tv.lambda)).map (fun l => mmap (· * l) mixed)
  else
    some mixed

/-- The tall-mask consensus mask: elementwise count of the tall masks
(`tall_masks.sum(dim=0)`) compared against the threshold `k`. -/
def consensusOfTalls (talls : List BMat) (k : ℚ) : BMat :=
  (stackSum (talls.map maskMat)).map (List.map (fun q => decide (k ≤ q)))

/-- The tall-mask collection loop: one `get_tall_mask(delta, lambda, mixed)`
call per descriptor, in order; a missing `lambda` entry is a python
KeyError (`none`). -/
def tallMasks (tfn : TallMaskFn) (mixed : Mat) : List TVInfo → Option (List BMat)
  | [] => some []
  | tv :: rest =>
    match tv.lambda with
    | none => none
    | some l =>
      (tallMasks tfn mixed rest).map (fun ts => tfn tv.delta l mixed :: ts)

/-- The `consensus_ta` / `consensus_ties` post-hoc trim: derive a tall mask
from each descriptor's original delta and `lambda`, threshold the count at
the first descriptor's `k`, and zero the mixed delta outside the consensus. -/
def tallStage (cfg : GTAConfig) (tfn : TallMaskFn) (tvs : List TVInfo)
    (mixed : Mat) : Option Mat :=
  if cfg.sparsification_method = some .consensus_ta ∨
     cfg.sparsification_method = some .consensus_ties then
    (tallMasks tfn mixed tvs).bind
      (fun talls =>
        (tvs.head?.bind (fun tv => tv.k)).map (fun k =>
          mzip (· * ·) mixed (maskMat (consensusOfTalls talls k))))
  else
    some mixed

/-- `GTATask.execute`: the full per-tensor merge.  `sfn` and `tfn` stand for
the external `sparsify` / `get_tall_mask` primitives. -/
def execute (cfg : GTAConfig) (sfn : SparsifyFn) (tfn : TallMaskFn)
    (is_embed : Bool) (base_model : ℕ) (tensors : List (ℕ × Mat))
    (tp : ℕ → TVParams) : Option Mat := do
  let (tvs, base, _warns) ← get_task_vectors is_embed base_model tensors tp
  if tvs.isEmpty then
    return base
  let deltas := buildDeltas cfg.sparsification_method cfg.rescale sfn tvs
  let mixed1 ← aggregateStage cfg tvs deltas
  let mixed2 ← lambdaStage cfg tvs mixed1
  let mixed3 ← tallStage cfg tfn tvs mixed2
  return mzip (· + ·) base mixed3

/-! ### Pointwise and shape infrastructure -/

lemma mem_zipWith_ex {α β γ : Type} {f : α → β → γ} :
    ∀ {l1 : List α} {l2 : List β} {c : γ}, c ∈ List.zipWith f l1 l2 →
      ∃ a ∈ l1, ∃ b ∈ l2, c = f a b := by
  intro l1
  induction l1 with
  | nil => intro l2 c h; simp [List.zipWith] at h
  | cons x xs ih =>
    intro l2 c h
    cases l2 with
    | nil => simp [List.zipWith] at h
    | cons y ys =>
      rw [List.zipWith_cons_cons, List.mem_cons] at h
      rcases h with h | h
      · exact ⟨x, by simp, y, by simp, h⟩
      · obtain ⟨a, ha, b, hb, rfl⟩ := ih h
        exact ⟨a, by simp [ha], b, by simp [hb], rfl⟩

lemma rect_mapmap {α β : Type} {R C : ℕ} {m : List (List α)} (f : α → β)
    (h : rect R C m) : rect R C (m.map (List.map f)) := by
  obtain ⟨h1, h2⟩ := h
  refine ⟨by simpa using h1, ?_⟩
  intro row hrow
  obtain ⟨row0, hrow0, rfl⟩ := List.mem_map.mp hrow
  simpa using h2 row0 hrow0

lemma rect_zipWith2 {α β γ : Type} {R C : ℕ} {a : List (List α)}
    {b : List (List β)} (f : α → β → γ)
    (ha : rect R C a) (hb : rect R C b) :
    rect R C (List.zipWith (List.zipWith f) a b) := by
  obtain ⟨ha1, ha2⟩ := ha
  obtain ⟨hb1, hb2⟩ := hb
  refine ⟨by simp [List.length_zipWith, ha1, hb1], ?_⟩
  intro row hrow
  obtain ⟨ra, hra, rb, hrb, rfl⟩ := mem_zipWith_ex hrow
  simp [List.length_zipWith, ha2 ra hra, hb2 rb hrb]

lemma rect_mmap {R C : ℕ} {m : Mat} (f : ℚ → ℚ) (h : rect R C m) :
    rect R C (mmap f m) := rect_mapmap f h

lemma rect_mzip {R C : ℕ} {a b : Mat} (f : ℚ → ℚ → ℚ)
    (ha : rect R C a) (hb : rect R C b) : rect R C (mzip f a b) :=
  rect_zipWith2 f ha hb

lemma rect_maskMat {R C : ℕ} {mk : BMat} (h : rect R C mk) :
    rect R C (maskMat mk) := rect_mapmap boolToQ h

lemma rect_stackSum {R C : ℕ} :
    ∀ {ms : List Mat}, (∀ m ∈ ms, rect R C m) → ms ≠ [] →
      rect R C (stackSum ms)
  | [], _, hne => absurd rfl hne
  | [m], h, _ => by simpa [stackSum] using h m (by simp)
  | m :: n :: rest, h, _ => by
    rw [stackSum]
    exact rect_mzip _ (h m (by simp))
      (rect_stackSum (fun x hx => h x (List.mem_cons_of_mem _ hx)) (by simp))

lemma getD2_map {α β : Type} (f : α → β) (da : α) (db : β)
    {R C : ℕ} {m : List (List α)} (h : rect R C m)
    {r c : ℕ} (hr : r < R) (hc : c < C) :
    (((m.map (List.map f)).getD r []).getD c db)
      = f ((m.getD r []).getD c da) := by
  obtain ⟨h1, h2⟩ := h
  have hrm : r < m.length := by omega
  have h1m : r < (m.map (List.map f)).length := by simpa using hrm
  rw [List.getD_eq_getElem _ _ h1m, List.getD_eq_getElem _ _ hrm,
    List.getElem_map]
  have hcr : c < m[r].length := by
    rw [h2 m[r] (List.getElem_mem hrm)]; exact hc
  have hcm : c < (List.map f m[r]).length := by simpa using hcr
  rw [List.getD_eq_getElem _ _ hcm, List.getD_eq_getElem _ _ hcr,
    List.getElem_map]

lemma getD2_zipWith {α β γ : Type} (f : α → β → γ) (da : α) (db : β) (dc : γ)
    {R C : ℕ} {a : List (List α)} {b : List (List β)}
    (ha : rect R C a) (hb : rect R C b)
    {r c : ℕ} (hr : r < R) (hc : c < C) :
    (((List.zipWith (List.zipWith f) a b).getD r []).getD c dc)
      = f ((a.getD r []).getD c da) ((b.getD r []).getD c db) := by
  obtain ⟨ha1, ha2⟩ := ha
  obtain ⟨hb1, hb2⟩ := hb
  have hra : r < a.length := by omega
  have hrb : r < b.length := by omega
  have hrz : r < (List.zipWith (List.zipWith f) a b).length := by
    simp [List.length_zipWith]; omega
  rw [List.getD_eq_getElem _ _ hrz, List.getD_eq_getElem _ _ hra,
    List.getD_eq_getElem _ _ hrb, List.getElem_zipWith]
  have hca : c < a[r].length := by
    rw [ha2 a[r] (List.getElem_mem hra)]; exact hc
  have hcb : c < b[r].length := by
    rw [hb2 b[r] (List.getElem_mem hrb)]; exact hc
  have hcz : c < (List.zipWith f a[r] b[r]).length := by
    simp [List.length_zipWith]; omega
  rw [List.getD_eq_getElem _ _ hcz, List.getD_eq_getElem _ _ hca,
    List.getD_eq_getElem _ _ hcb, List.getElem_zipWith]

lemma mAt_mmap (f : ℚ → ℚ) {R C : ℕ} {m : Mat} (h : rect R C m)
    {r c : ℕ} (hr : r < R) (hc : c < C) :
    mAt (mmap f m) r c = f (mAt m r c) :=
  getD2_map f 0 0 h hr hc

lemma mAt_mzip (f : ℚ → ℚ → ℚ) {R C : ℕ} {a b : Mat}
    (ha : rect R C a) (hb : rect R C b)
    {r c : ℕ} (hr : r < R) (hc : c < C) :
    mAt (mzip f a b) r c = f (mAt a r c) (mAt b r c) :=
  getD2_zipWith f 0 0 0 ha hb hr hc

lemma bAt_mzipB (f : ℚ → ℚ → Bool) {R C : ℕ} {a b : Mat}
    (ha : rect R C a) (hb : rect R C b)
    {r c : ℕ} (hr : r < R) (hc : c < C) :
    bAt (mzipB f a b) r c = f (mAt a r c) (mAt b r c) :=
  getD2_zipWith f 0 0 false ha hb hr hc

lemma mAt_stackSum {R C : ℕ} :
    ∀ {ms : List Mat}, (∀ m ∈ ms, rect R C m) →
      ∀ {r c : ℕ}, r < R → c < C →
        mAt (stackSum ms) r c = (ms.map (fun m => mAt m r c)).sum
  | [], _, _, _, _, _ => by simp [stackSum, mAt]
  | [m], _, _, _, _, _ => by simp [stackSum]
  | m :: n :: rest, h, r, c, hr, hc => by
    rw [stackSum, mAt_mzip (· + ·) (h m (by simp))
      (rect_stackSum (fun x hx => h x (List.mem_cons_of_mem _ hx)) (by simp))
      hr hc,
      mAt_stackSum (fun x hx => h x (List.mem_cons_of_mem _ hx)) hr hc]
    simp

lemma getD_zero_of_all {l : List ℚ} (h : ∀ q ∈ l, q = 0) (c : ℕ) :
    l.getD c 0 = 0 := by
  by_cases hc : c < l.length
  · rw [List.getD_eq_getElem _ _ hc]; exact h _ (List.getElem_mem hc)
  · rw [List.getD_eq_default _ _ (by omega)]

lemma mAt_zero_of_all {m : Mat} (h : ∀ row ∈ m, ∀ q ∈ row, q = 0)
    (r c : ℕ) : mAt m r c = 0 := by
  unfold mAt
  by_cases hr : r < m.length
  · rw [List.getD_eq_getElem _ _ hr]
    exact getD_zero_of_all (h _ (List.getElem_mem hr)) c
  · rw [show m.getD r [] = [] from List.getD_eq_default _ _ (by omega)]
    simp

lemma bAt_false_of_all {m : BMat} (h : ∀ row ∈ m, ∀ b ∈ row, b = false)
    (r c : ℕ) : bAt m r c = false := by
  unfold bAt
  by_cases hr : r < m.length
  · rw [List.getD_eq_getElem _ _ hr]
    have h2 := h _ (List.getElem_mem hr)
    by_cases hc : c < m[r].length
    · rw [List.getD_eq_getElem _ _ hc]; exact h2 _ (List.getElem_mem hc)
    · rw [List.getD_eq_default _ _ (by omega)]
  · rw [show m.getD r [] = [] from List.getD_eq_default _ _ (by omega)]
    simp

/-! ### Scalar facts about dtype casts and signs -/

lemma castDtype_zero (d : MaskDtype) : castDtype d 0 = 0 := by
  cases d <;> decide

lemma castDtype_one (d : MaskDtype) : castDtype d 1 = 1 := by
  cases d <;> decide

lemma castDtype_negone (d : MaskDtype) : castDtype d (-1) = -1 := by
  cases d <;> decide

lemma castDtype_qsign (d : MaskDtype) (q : ℚ) :
    castDtype d (qsign q) = qsign q := by
  unfold qsign
  split_ifs <;>
    simp [castDtype_negone, castDtype_zero, castDtype_one]

lemma majority_val (d : MaskDtype) (s : ℚ) :
    (if 0 ≤ s then castDtype d 1 * 2 - 1 else castDtype d 0 * 2 - 1)
      = (if 0 ≤ s then 1 else -1) := by
  split_ifs with h
  · rw [castDtype_one]; norm_num
  · rw [castDtype_zero]; norm_num

/-! ### Entry characterization of `get_mask` -/

lemma get_mask_sum_eq (wd : List Mat) (d : MaskDtype) :
    get_mask wd "sum" d =
      some ((wd.map (mmap (fun q => castDtype d (qsign q)))).map
        (fun sg => mzipB (fun a b => decide (a = b)) sg
          (mmap (fun t => if 0 ≤ t then castDtype d 1 * 2 - 1
             else castDtype d 0 * 2 - 1) (stackSum wd)))) := by
  simp [get_mask]

lemma get_mask_count_eq (wd : List Mat) (d : MaskDtype) :
    get_mask wd "count" d =
      some ((wd.map (mmap (fun q => castDtype d (qsign q)))).map
        (fun sg => mzipB (fun a b => decide (a = b)) sg
          (mmap (fun t => if 0 ≤ t then castDtype d 1 * 2 - 1
             else castDtype d 0 * 2 - 1)
            (stackSum (wd.map (mmap (fun q => castDtype d (qsign q)))))))) := by
  simp [get_mask]

lemma tAt_get_mask_sum {R C : ℕ} {wd : List Mat} {d : MaskDtype}
    {mask : List BMat} (hrect : ∀ m ∈ wd, rect R C m)
    (hm : get_mask wd "sum" d = some mask)
    {i r c : ℕ} (hi : i < wd.length) (hr : r < R) (hc : c < C) :
    tAt mask i r c
      = decide (qsign (mAt (wd.getD i []) r c)
          = (if 0 ≤ mAt (stackSum wd) r c then 1 else -1)) := by
  rw [get_mask_sum_eq] at hm
  injection hm with hm
  subst hm
  unfold tAt
  have hrecti : rect R C (wd.getD i []) := by
    rw [List.getD_eq_getElem _ _ hi]
    exact hrect _ (List.getElem_mem hi)
  have hrsum : rect R C (stackSum wd) :=
    rect_stackSum hrect (List.ne_nil_of_length_pos (by omega))
  have hi1 : i < (wd.map (mmap (fun q => castDtype d (qsign q)))).length := by
    simpa using hi
  have hi2 : i < ((wd.map (mmap (fun q => castDtype d (qsign q)))).map
      (fun sg => mzipB (fun a b => decide (a = b)) sg
        (mmap (fun t => if 0 ≤ t then castDtype d 1 * 2 - 1
           else castDtype d 0 * 2 - 1) (stackSum wd)))).length := by
    simpa using hi
  rw [List.getD_eq_getElem _ _ hi2, List.getElem_map, List.getElem_map,
    bAt_mzipB _ (rect_mmap _ (hrect _ (List.getElem_mem hi))) (rect_mmap _ hrsum) hr hc,
    mAt_mmap _ (hrect _ (List.getElem_mem hi)) hr hc,
    mAt_mmap _ hrsum hr hc, castDtype_qsign, majority_val,
    List.getD_eq_getElem _ _ hi]

lemma tAt_get_mask_count {R C : ℕ} {wd : List Mat} {d : MaskDtype}
    {mask : List BMat} (hrect : ∀ m ∈ wd, rect R C m)
    (hm : get_mask wd "count" d = some mask)
    {i r c : ℕ} (hi : i < wd.length) (hr : r < R) (hc : c < C) :
    tAt mask i r c
      = decide (qsign (mAt (wd.getD i []) r c)
          = (if 0 ≤ (wd.map (fun m => qsign (mAt m r c))).sum then 1 else -1)) := by
  rw [get_mask_count_eq] at hm
  injection hm with hm
  subst hm
  unfold tAt
  have hrectsg : ∀ m ∈ wd.map (mmap (fun q => castDtype d (qsign q))), rect R C m := by
    intro m hmem
    obtain ⟨m0, hm0, rfl⟩ := List.mem_map.mp hmem
    exact rect_mmap _ (hrect _ hm0)
  have hrsum : rect R C (stackSum (wd.map (mmap (fun q => castDtype d (qsign q))))) :=
    rect_stackSum hrectsg (by
      intro hnil
      rw [List.map_eq_nil_iff] at hnil
      subst hnil
      simp at hi)
  have hi2 : i < ((wd.map (mmap (fun q => castDtype d (qsign q)))).map
      (fun sg => mzipB (fun a b => decide (a = b)) sg
        (mmap (fun t => if 0 ≤ t then castDtype d 1 * 2 - 1
           else castDtype d 0 * 2 - 1)
          (stackSum (wd.map (mmap (fun q => castDtype d (qsign q)))))))).length := by
    simpa using hi
  rw [List.getD_eq_getElem _ _ hi2, List.getElem_map, List.getElem_map,
    bAt_mzipB _ (rect_mmap _ (hrect _ (List.getElem_mem hi))) (rect_mmap _ hrsum) hr hc,
    mAt_mmap _ (hrect _ (List.getElem_mem hi)) hr hc,
    mAt_mmap _ hrsum hr hc, castDtype_qsign, majority_val,
    mAt_stackSum hrectsg hr hc, List.map_map,
    List.getD_eq_getElem _ _ hi]
  have hmap : List.map ((fun m => mAt m r c) ∘ mmap (fun q => castDtype d (qsign q))) wd
      = List.map (fun m => qsign (mAt m r c)) wd := by
    refine List.map_congr_left ?_
    intro m hmem
    simp only [Function.comp]
    rw [mAt_mmap _ (hrect _ hmem) hr hc, castDtype_qsign]
  rw [hmap]

instance rect.instDecidable {α : Type} (R C : ℕ) (m : List (List α)) :
    Decidable (rect R C m) := by
  unfold rect
  infer_instance

lemma maskDtypeOf_true : maskDtypeOf true = MaskDtype.int8 := rfl

lemma maskDtypeOf_false : maskDtypeOf false = MaskDtype.base := rfl

lemma get_mask_dtype_eq (delta : List Mat) (s : String) (d : MaskDtype) :
    get_mask delta s d = get_mask delta s MaskDtype.base := by
  unfold get_mask
  simp only [castDtype_qsign, majority_val]

lemma get_mask_rect {R C : ℕ} {wd : List Mat} {s : String} {d : MaskDtype}
    {mask : List BMat} (hrect : ∀ m ∈ wd, rect R C m)
    (hm : get_mask wd s d = some mask) :
    mask.length = wd.length ∧ ∀ b ∈ mask, rect R C b := by
  unfold get_mask at hm
  split_ifs at hm
  case _ =>
    injection hm with hm
    subst hm
    refine ⟨by simp, ?_⟩
    intro b hb
    obtain ⟨sg, hsg, rfl⟩ := List.mem_map.mp hb
    obtain ⟨m0, hm0, rfl⟩ := List.mem_map.mp hsg
    have hne : wd ≠ [] := List.ne_nil_of_mem hm0
    exact rect_zipWith2 _ (rect_mmap _ (hrect _ hm0))
      (rect_mmap _ (rect_stackSum hrect hne))
  case _ =>
    injection hm with hm
    subst hm
    refine ⟨by simp, ?_⟩
    intro b hb
    obtain ⟨sg, hsg, rfl⟩ := List.mem_map.mp hb
    obtain ⟨m0, hm0, rfl⟩ := List.mem_map.mp hsg
    have hne : wd ≠ [] := List.ne_nil_of_mem hm0
    have hrectsg : ∀ m ∈ wd.map (mmap (fun q => castDtype d (qsign q))), rect R C m := by
      intro m hmem
      obtain ⟨m1, hm1, rfl⟩ := List.mem_map.mp hmem
      exact rect_mmap _ (hrect _ hm1)
    exact rect_zipWith2 _ (rect_mmap _ (hrect _ hm0))
      (rect_mmap _ (rect_stackSum hrectsg (by simpa using hne)))

/-- Claim C8: building the consensus mask with a method that is neither
"sum" nor "count" raises an error (`none`) and is never silently defaulted
to some rule. -/
theorem c8_unknown_method_errors (delta : List Mat) (d : MaskDtype)
    (s : String) (h1 : s ≠ "sum") (h2 : s ≠ "count") :
    get_mask delta s d = none := by
  simp [get_mask, h1, h2]

theorem c8_witness : get_mask [[[1]]] "mean" MaskDtype.base = none :=
  c8_unknown_method_errors [[[1]]] MaskDtype.base "mean" (by decide) (by decide)

/-- Claim C1, counterexample: with sparsification method `consensus_ties`,
the stack fed to aggregation is NOT the raw deltas — `sparsify` is applied
pre-aggregation (only `consensus_ta` is excluded by the code's guard).
Here a sparsifier that zeroes everything changes the stack. -/
theorem c1_cex_ties_sparsifies :
    buildDeltas (some SparsificationMethod.consensus_ties) false
        (fun _ _ _ _ _ _ => [[0]])
        [{ model := 1, delta := [[1]], weight := 1, density := 1,
           gamma := none, epsilon := none, lambda := none, k := none }]
      ≠ [[[1]]] := by decide

/-- Claim C1, amended: only `consensus_ta` skips pre-aggregation
sparsification; `consensus_ties` replaces each descriptor's delta with
`sparsify(delta, density, consensus_ties, rescale, extras)` before the
weighted stack is built. -/
theorem c1_only_ta_skips_presparsify (rescale : Bool) (sfn : SparsifyFn)
    (tvs : List TVInfo) :
    buildDeltas (some SparsificationMethod.consensus_ta) rescale sfn tvs
        = tvs.map (fun tv => tv.delta)
    ∧ buildDeltas (some SparsificationMethod.consensus_ties) rescale sfn tvs
        = tvs.map (fun tv => sfn tv.delta tv.density
            SparsificationMethod.consensus_ties rescale tv.gamma tv.epsilon) := by
  constructor <;> simp [buildDeltas]

/-- Claim C7: the merged output with `int8_mask = true` is identical to the
output with `int8_mask = false`, all other inputs equal. -/
theorem c7_int8_mask_semantics_free (sm : Option SparsificationMethod)
    (cm : Option ConsensusMethod) (nrm rsc : Bool) (sfn : SparsifyFn)
    (tfn : TallMaskFn) (ie : Bool) (bm : ℕ) (tensors : List (ℕ × Mat))
    (tp : ℕ → TVParams) :
    execute ⟨sm, cm, true, nrm, rsc⟩ sfn tfn ie bm tensors tp
      = execute ⟨sm, cm, false, nrm, rsc⟩ sfn tfn ie bm tensors tp := by
  have hagg : ∀ tvs deltas,
      aggregateStage ⟨sm, cm, true, nrm, rsc⟩ tvs deltas
        = aggregateStage ⟨sm, cm, false, nrm, rsc⟩ tvs deltas := by
    intro tvs deltas
    unfold aggregateStage
    cases cm with
    | none => rfl
    | some c =>
      simp only [maskDtypeOf_true, maskDtypeOf_false, get_mask_dtype_eq]
  simp only [execute, hagg, lambdaStage, tallStage]

/-- Claim C9: if task-vector extraction produces zero non-base descriptors,
the merge returns the base tensor unchanged, for every configuration and
every choice of the external primitives (no later stage influences it). -/
theorem c9_no_contributors_returns_base (cfg : GTAConfig) (sfn : SparsifyFn)
    (tfn : TallMaskFn) (ie : Bool) (bm : ℕ) (tensors : List (ℕ × Mat))
    (tp : ℕ → TVParams) (base : Mat) (w : List Warn)
    (h : get_task_vectors ie bm tensors tp = some ([], base, w)) :
    execute cfg sfn tfn ie bm tensors tp = some base := by
  simp [execute, h]

theorem c9_witness :
    execute ⟨none, some ConsensusMethod.sum, false, true, false⟩
        (fun d _ _ _ _ _ => d) (fun _ _ _ => []) false 0 [(0, [[7]])]
        (fun _ => ⟨1, 1, none, none, none, none⟩)
      = some [[7]] :=
  c9_no_contributors_returns_base
    ⟨none, some ConsensusMethod.sum, false, true, false⟩
    (fun d _ _ _ _ _ => d) (fun _ _ _ => []) false 0 [(0, [[7]])]
    (fun _ => ⟨1, 1, none, none, none, none⟩) [[7]] [] (by decide)

/-- Claim C3: the consensus mask entry for model `i` is true exactly when the
sign of model `i`'s weighted delta equals the majority sign; under "sum" the
majority sign is +1 iff the elementwise sum of the weighted deltas is ≥ 0
(else −1), and under "count" it is +1 iff the elementwise sum of the
per-model signs is ≥ 0 (else −1). -/
theorem c3_mask_entry_characterization {R C : ℕ} {wd : List Mat}
    (hrect : ∀ m ∈ wd, rect R C m) (d : MaskDtype)
    {i r c : ℕ} (hi : i < wd.length) (hr : r < R) (hc : c < C) :
    (∀ mask, get_mask wd "sum" d = some mask →
      (tAt mask i r c = true ↔
        qsign (mAt (wd.getD i []) r c)
          = (if 0 ≤ mAt (stackSum wd) r c then 1 else -1)))
    ∧ (∀ mask, get_mask wd "count" d = some mask →
      (tAt mask i r c = true ↔
        qsign (mAt (wd.getD i []) r c)
          = (if 0 ≤ (wd.map (fun m => qsign (mAt m r c))).sum then 1 else -1))) := by
  constructor
  · intro mask hm
    rw [tAt_get_mask_sum hrect hm hi hr hc]
    exact decide_eq_true_iff
  · intro mask hm
    rw [tAt_get_mask_count hrect hm hi hr hc]
    exact decide_eq_true_iff

theorem c3_witness : tAt [[[true]], [[false]]] 0 0 0 = true :=
  ((@c3_mask_entry_characterization 1 1 [[[2]], [[-1]]] (by decide)
      MaskDtype.base 0 0 0 (by decide) (by decide) (by decide)).1
    [[[true]], [[false]]]
    (by norm_num [get_mask, stackSum, mzip, mzipB, mmap, qsign, castDtype])).mpr
    (by norm_num [qsign, mAt, stackSum, mzip])

lemma mAt_maskMat {R C : ℕ} {mk : BMat} (h : rect R C mk)
    {r c : ℕ} (hr : r < R) (hc : c < C) :
    mAt (maskMat mk) r c = boolToQ (bAt mk r c) :=
  getD2_map boolToQ false 0 h hr hc

lemma qsign_zero : qsign 0 = 0 := by norm_num [qsign]

/-- Claim C10: at every element where a model's weighted delta is exactly
zero, the consensus mask excludes that model (its sign 0 never equals the
±1 majority sign, under both the "sum" and the "count" rule), so that
model's summand is zero in both the mixed delta and the divisor. -/
theorem c10_zero_weighted_delta_excluded {R C : ℕ} {wd : List Mat}
    (hrect : ∀ m ∈ wd, rect R C m) (d : MaskDtype) (ws : List ℚ)
    {i r c : ℕ} (hi : i < wd.length) (hr : r < R) (hc : c < C)
    (hiw : i < ws.length)
    (hz : mAt (wd.getD i []) r c = 0) :
    ∀ s ∈ (["sum", "count"] : List String), ∀ mask : List BMat,
      get_mask wd s d = some mask →
        tAt mask i r c = false
        ∧ mAt ((mixedSummands wd mask).getD i []) r c = 0
        ∧ mAt ((divisorSummands ws mask).getD i []) r c = 0 := by
  intro s hs mask hm
  have hz' : mAt wd[i] r c = 0 := by rwa [List.getD_eq_getElem _ _ hi] at hz
  have hfalse : tAt mask i r c = false := by
    have hs2 : s = "sum" ∨ s = "count" := by simpa using hs
    rcases hs2 with rfl | rfl
    · rw [tAt_get_mask_sum hrect hm hi hr hc, hz, qsign_zero]
      rcases le_or_lt 0 (mAt (stackSum wd) r c) with h | h
      · rw [if_pos h]; decide
      · rw [if_neg (not_le.mpr h)]; decide
    · rw [tAt_get_mask_count hrect hm hi hr hc, hz, qsign_zero]
      rcases le_or_lt 0 ((wd.map (fun m => qsign (mAt m r c))).sum) with h | h
      · rw [if_pos h]; decide
      · rw [if_neg (not_le.mpr h)]; decide
  obtain ⟨hlen, hrectm⟩ := get_mask_rect hrect hm
  have him : i < mask.length := by omega
  refine ⟨hfalse, ?_, ?_⟩
  · have hi2 : i < (mixedSummands wd mask).length := by
      simp [mixedSummands, List.length_zipWith]; omega
    rw [List.getD_eq_getElem _ _ hi2]
    unfold mixedSummands
    rw [List.getElem_zipWith,
      mAt_mzip (· * ·) (hrect _ (List.getElem_mem hi))
        (rect_maskMat (hrectm _ (List.getElem_mem him))) hr hc,
      hz', zero_mul]
  · have hi3 : i < (divisorSummands ws mask).length := by
      simp [divisorSummands, List.length_zipWith]; omega
    rw [List.getD_eq_getElem _ _ hi3]
    unfold divisorSummands
    rw [List.getElem_zipWith,
      mAt_mmap _ (rect_maskMat (hrectm _ (List.getElem_mem him))) hr hc,
      mAt_maskMat (hrectm _ (List.getElem_mem him)) hr hc]
    have hbat : bAt mask[i] r c = false := by
      rw [← List.getD_eq_getElem mask [] him]
      exact hfalse
    rw [hbat]
    show ws[i] * boolToQ false = 0
    norm_num [boolToQ]

theorem c10_witness : tAt [[[false]], [[true]]] 0 0 0 = false :=
  (@c10_zero_weighted_delta_excluded 1 1 [[[0]], [[3]]] (by decide)
    MaskDtype.base [1, 1] 0 0 0 (by decide) (by decide) (by decide)
    (by decide) (by decide) "sum" (by decide) [[[false]], [[true]]]
    (by norm_num [get_mask, stackSum, mzip, mzipB, mmap, qsign, castDtype])).1

/-! ### Zero-entry propagation -/

lemma mzip_zero_left {f : ℚ → ℚ → ℚ} {a b : Mat}
    (hf : ∀ y, f 0 y = 0) (ha : ∀ row ∈ a, ∀ q ∈ row, q = 0) :
    ∀ row ∈ mzip f a b, ∀ q ∈ row, q = 0 := by
  intro row hrow q hq
  obtain ⟨ra, hra, rb, hrb, rfl⟩ := mem_zipWith_ex hrow
  obtain ⟨x, hx, y, hy, rfl⟩ := mem_zipWith_ex hq
  rw [ha ra hra x hx]
  exact hf y

lemma mmap_zero_entries {f : ℚ → ℚ} {a : Mat} (hf : f 0 = 0)
    (ha : ∀ row ∈ a, ∀ q ∈ row, q = 0) :
    ∀ row ∈ mmap f a, ∀ q ∈ row, q = 0 := by
  intro row hrow q hq
  obtain ⟨ra, hra, rfl⟩ := List.mem_map.mp hrow
  obtain ⟨x, hx, rfl⟩ := List.mem_map.mp hq
  rw [ha ra hra x hx]
  exact hf

lemma stackSum_zero_entries :
    ∀ {ms : List Mat}, (∀ m ∈ ms, ∀ row ∈ m, ∀ q ∈ row, q = 0) →
      ∀ row ∈ stackSum ms, ∀ q ∈ row, q = 0
  | [], _ => by simp [stackSum]
  | [m], h => by simpa [stackSum] using h m (by simp)
  | m :: n :: rest, h => by
    rw [stackSum]
    intro row hrow q hq
    obtain ⟨ra, hra, rb, hrb, rfl⟩ := mem_zipWith_ex hrow
    obtain ⟨x, hx, y, hy, rfl⟩ := mem_zipWith_ex hq
    rw [h m (by simp) ra hra x hx,
      stackSum_zero_entries (fun z hz => h z (List.mem_cons_of_mem _ hz)) rb hrb y hy]
    norm_num

lemma weightedDeltas_zero_entries {deltas : List Mat} {ws : List ℚ}
    (hws : ∀ w ∈ ws, w = 0) :
    ∀ m ∈ weightedDeltas deltas ws, ∀ row ∈ m, ∀ q ∈ row, q = 0 := by
  intro m hm
  obtain ⟨dm, hdm, w, hw, rfl⟩ := mem_zipWith_ex hm
  intro row hrow q hq
  obtain ⟨ra, hra, rfl⟩ := List.mem_map.mp hrow
  obtain ⟨x, hx, rfl⟩ := List.mem_map.mp hq
  rw [hws w hw, mul_zero]

lemma mixedSummands_zero_entries {wd : List Mat} {mask : List BMat}
    (hwd : ∀ m ∈ wd, ∀ row ∈ m, ∀ q ∈ row, q = 0) :
    ∀ m ∈ mixedSummands wd mask, ∀ row ∈ m, ∀ q ∈ row, q = 0 := by
  intro m hm
  obtain ⟨dm, hdm, mk, hmk, rfl⟩ := mem_zipWith_ex hm
  exact mzip_zero_left (fun y => zero_mul y) (hwd dm hdm)

/-- Claim C2 counterexample: with weights 1 and −1 and deltas [[2]], [[−3]]
under sum-consensus with normalize, the per-model weights exactly cancel
under the mask (the pre-guard divisor is 0 at the element), yet the
normalized mixed delta there is 5, not 0. -/
theorem c2_cex_cancelling_weights :
    aggregateStage ⟨none, some ConsensusMethod.sum, false, true, false⟩
        [⟨1, [[2]], 1, 1, none, none, none, none⟩,
         ⟨2, [[-3]], -1, 1, none, none, none, none⟩]
        [[[2]], [[-3]]]
      = some [[5]]
    ∧ get_mask [[[2]], [[3]]] "sum" MaskDtype.base = some [[[true]], [[true]]]
    ∧ mAt (stackSum (divisorSummands [1, -1] [[[true]], [[true]]])) 0 0 = 0
    ∧ (5 : ℚ) ≠ 0 := by
  refine ⟨?_, ?_, ?_, by norm_num⟩
  · norm_num [aggregateStage, weightedDeltas, get_mask, stackSum, mzip, mzipB,
      mmap, qsign, castDtype, maskDtypeOf, cmName, mixedSummands,
      divisorSummands, maskMat, boolToQ, guardZero, mAt]
  · norm_num [get_mask, stackSum, mzip, mzipB, mmap, qsign, castDtype]
  · norm_num [divisorSummands, stackSum, mmap, maskMat, boolToQ, mAt, mzip]

/-- Claim C2, amended: with normalize set the division is always safe —
after the guard, every element of the masked-path divisor is nonzero and
the unmasked-path scalar divisor is nonzero — and when every per-model
weight is zero the normalized mixed delta is 0 at every element.  (The
original claim's "or exactly cancel under the mask" case is refuted by
`c2_cex_cancelling_weights`.) -/
theorem c2_divisor_guard_and_zero_weights :
    (∀ dm : Mat, ∀ row ∈ guardZero dm, ∀ q ∈ row, q ≠ 0)
    ∧ (∀ q : ℚ, guardEps q ≠ 0)
    ∧ (∀ (cfg : GTAConfig) (tvs : List TVInfo) (deltas : List Mat) (mixed : Mat),
        cfg.normalize = true →
        (∀ tv ∈ tvs, tv.weight = 0) →
        aggregateStage cfg tvs deltas = some mixed →
        ∀ r c, mAt mixed r c = 0) := by
  refine ⟨?_, ?_, ?_⟩
  · intro dm row hrow q hq
    obtain ⟨ra, hra, rfl⟩ := List.mem_map.mp hrow
    obtain ⟨x, hx, rfl⟩ := List.mem_map.mp hq
    by_cases hx0 : x = 0
    · simp [hx0]
    · simp [hx0]
  · intro q
    unfold guardEps
    split_ifs with h
    · norm_num
    · intro h0
      rw [h0] at h
      exact h (by norm_num [eps8])
  · intro cfg tvs deltas mixed hnrm hws hagg
    have hwz : ∀ w ∈ tvs.map (fun tv => tv.weight), w = 0 := by
      intro w hw
      obtain ⟨tv, htv, rfl⟩ := List.mem_map.mp hw
      exact hws tv htv
    have hwd := @weightedDeltas_zero_entries deltas _ hwz
    unfold aggregateStage at hagg
    rw [hnrm] at hagg
    cases hcm : cfg.consensus_method with
    | some cm =>
      rw [hcm] at hagg
      rw [Option.map_eq_some'] at hagg
      obtain ⟨mask, hmask, rfl⟩ := hagg
      simp only [if_true]
      refine mAt_zero_of_all ?_
      exact mzip_zero_left (fun y => zero_div y)
        (stackSum_zero_entries (mixedSummands_zero_entries hwd))
    | none =>
      rw [hcm] at hagg
      injection hagg with hagg
      subst hagg
      simp only [if_true]
      refine mAt_zero_of_all ?_
      exact mmap_zero_entries (zero_div _)
        (stackSum_zero_entries hwd)

theorem c2_witness : mAt [[0]] 0 0 = 0 :=
  c2_divisor_guard_and_zero_weights.2.2
    ⟨none, some ConsensusMethod.sum, false, true, false⟩
    [⟨1, [[3]], 0, 1, none, none, none, none⟩] [[[3]]] [[0]]
    rfl (by decide)
    (by norm_num [aggregateStage, weightedDeltas, get_mask, stackSum, mzip,
      mzipB, mmap, qsign, castDtype, maskDtypeOf, cmName, mixedSummands,
      divisorSummands, maskMat, boolToQ, guardZero])
    0 0

/-! ### Algebra for the idempotence claim -/

lemma vadd_vsub_cancel :
    ∀ (b x : List ℚ), b.length = x.length →
      List.zipWith (· + ·) b (List.zipWith (· - ·) x b) = x
  | [], [], _ => rfl
  | [], _ :: _, h => by simp at h
  | _ :: _, [], h => by simp at h
  | b0 :: bt, x0 :: xt, h => by
    simp only [List.zipWith_cons_cons]
    rw [vadd_vsub_cancel bt xt (by simpa using h)]
    norm_num

lemma madd_msub_cancel :
    ∀ {x base : Mat}, shapeL x = shapeL base →
      mzip (· + ·) base (mzip (· - ·) x base) = x := by
  intro x
  induction x with
  | nil =>
    intro base h
    have : base = [] := by
      have := congrArg List.length h
      simp [shapeL] at this
      exact List.eq_nil_of_length_eq_zero this.symm
    subst this
    rfl
  | cons xr xt ih =>
    intro base h
    cases base with
    | nil => simp [shapeL] at h
    | cons br bt =>
      simp only [shapeL, List.map_cons, List.cons.injEq] at h
      simp only [mzip, List.zipWith_cons_cons]
      rw [vadd_vsub_cancel br xr h.1.symm]
      have := @ih bt (by simpa [shapeL] using h.2)
      simp only [mzip] at this
      rw [this]

/-- Claim C6: merging exactly one non-base model whose tensor shape matches
the base, with weight 1.0, normalize set, no sparsification and no
consensus method, yields exactly the model tensor
(base + (model − base) = model). -/
theorem c6_single_model_idempotence (i8 rsc ie : Bool) (sfn : SparsifyFn)
    (tfn : TallMaskFn) (bm m : ℕ) (base x : Mat) (tp : ℕ → TVParams)
    (hmb : m ≠ bm) (hsh : shapeL x = shapeL base) (hw : (tp m).weight = 1) :
    execute ⟨none, none, i8, true, rsc⟩ sfn tfn ie bm [(bm, base), (m, x)] tp
      = some x := by
  have hgo : gtv_go ie base bm tp [(bm, base), (m, x)]
      = some ([mkTV m (mzip (· - ·) x base) (tp m)], []) := by
    simp [gtv_go, hmb, hsh]
  have hgtv : get_task_vectors ie bm [(bm, base), (m, x)] tp
      = some ([mkTV m (mzip (· - ·) x base) (tp m)], base, []) := by
    simp [get_task_vectors, List.lookup, hgo]
  have hagg : aggregateStage ⟨none, none, i8, true, rsc⟩
      [mkTV m (mzip (· - ·) x base) (tp m)]
      [(mkTV m (mzip (· - ·) x base) (tp m)).delta]
      = some (mzip (· - ·) x base) := by
    norm_num [aggregateStage, weightedDeltas, stackSum, mkTV, hw,
      guardEps, eps8, mmap, mul_one, div_one]
  simp [execute, hgtv, buildDeltas, hagg, lambdaStage, tallStage,
    madd_msub_cancel hsh]

theorem c6_witness :
    execute ⟨none, none, false, true, false⟩ (fun d _ _ _ _ _ => d)
        (fun _ _ _ => []) false 0 [(0, [[1, 2], [3, 4]]), (1, [[5, 6], [7, 8]])]
        (fun _ => ⟨1, 1, none, none, none, none⟩)
      = some [[5, 6], [7, 8]] :=
  c6_single_model_idempotence false false false (fun d _ _ _ _ _ => d)
    (fun _ _ _ => []) 0 1 [[1, 2], [3, 4]] [[5, 6], [7, 8]]
    (fun _ => ⟨1, 1, none, none, none, none⟩)
    (by decide) (by decide) rfl

/-! ### Tall-mask consensus facts -/

lemma rect_shapeL {α : Type} {R C : ℕ} {m : List (List α)} (h : rect R C m) :
    m.map List.length = List.replicate R C := by
  obtain ⟨h1, h2⟩ := h
  refine List.eq_replicate_iff.mpr ⟨by simpa using h1, ?_⟩
  intro n hn
  obtain ⟨row, hrow, rfl⟩ := List.mem_map.mp hn
  exact h2 row hrow

lemma stackSum_count_le :
    ∀ {ms : List Mat}, (∀ m ∈ ms, ∀ row ∈ m, ∀ q ∈ row, q ≤ 1) →
      ∀ row ∈ stackSum ms, ∀ q ∈ row, q ≤ (ms.length : ℚ)
  | [], _ => by simp [stackSum]
  | [m], h => by
    intro row hrow q hq
    simpa using h m (by simp) row (by simpa [stackSum] using hrow) q hq
  | m :: n :: rest, h => by
    rw [stackSum]
    intro row hrow q hq
    obtain ⟨ra, hra, rb, hrb, rfl⟩ := mem_zipWith_ex hrow
    obtain ⟨x, hx, y, hy, rfl⟩ := mem_zipWith_ex hq
    have h1 : x ≤ 1 := h m (by simp) ra hra x hx
    have h2 : y ≤ ((n :: rest).length : ℚ) :=
      stackSum_count_le (fun z hz => h z (List.mem_cons_of_mem _ hz)) rb hrb y hy
    have : ((m :: n :: rest).length : ℚ) = 1 + ((n :: rest).length : ℚ) := by
      push_cast [List.length_cons]
      ring
    rw [this]
    exact add_le_add h1 h2

lemma maskMat_entries_le_one (mk : BMat) :
    ∀ row ∈ maskMat mk, ∀ q ∈ row, q ≤ 1 := by
  intro row hrow q hq
  obtain ⟨r0, hr0, rfl⟩ := List.mem_map.mp hrow
  obtain ⟨b, hb, rfl⟩ := List.mem_map.mp hq
  cases b <;> norm_num [boolToQ]

lemma consensusOfTalls_false {talls : List BMat} {k : ℚ}
    (hk : (talls.length : ℚ) < k) :
    ∀ row ∈ consensusOfTalls talls k, ∀ b ∈ row, b = false := by
  unfold consensusOfTalls
  intro row hrow b hb
  obtain ⟨crow, hcrow, rfl⟩ := List.mem_map.mp hrow
  obtain ⟨q, hq, rfl⟩ := List.mem_map.mp hb
  have hle : q ≤ ((talls.map maskMat).length : ℚ) :=
    stackSum_count_le
      (fun m hm => by
        obtain ⟨mk, hmk, rfl⟩ := List.mem_map.mp hm
        exact maskMat_entries_le_one mk)
      crow hcrow q hq
  rw [List.length_map] at hle
  have : ¬ (k ≤ q) := by
    intro hkq
    exact absurd (lt_of_lt_of_le hk hkq) (not_lt.mpr hle)
  simp [this]

lemma tallMasks_length {tfn : TallMaskFn} {mixed : Mat} :
    ∀ {tvs : List TVInfo} {talls : List BMat},
      tallMasks tfn mixed tvs = some talls → talls.length = tvs.length
  | [], talls, h => by
    simp [tallMasks] at h
    subst h
    rfl
  | tv :: rest, talls, h => by
    unfold tallMasks at h
    cases hl : tv.lambda with
    | none => rw [hl] at h; exact absurd h (by simp)
    | some l =>
      rw [hl] at h
      rw [Option.map_eq_some'] at h
      obtain ⟨ts, hts, rfl⟩ := h
      simp [tallMasks_length hts]

lemma tallMasks_rect {R C : ℕ} {tfn : TallMaskFn} {mixed : Mat}
    (htfn : ∀ de l, rect R C (tfn de l mixed)) :
    ∀ {tvs : List TVInfo} {talls : List BMat},
      tallMasks tfn mixed tvs = some talls → ∀ t ∈ talls, rect R C t
  | [], talls, h => by
    simp [tallMasks] at h
    subst h
    simp
  | tv :: rest, talls, h => by
    unfold tallMasks at h
    cases hl : tv.lambda with
    | none => rw [hl] at h; exact absurd h (by simp)
    | some l =>
      rw [hl] at h
      rw [Option.map_eq_some'] at h
      obtain ⟨ts, hts, rfl⟩ := h
      intro t ht
      rcases List.mem_cons.mp ht with rfl | ht2
      · exact htfn _ _
      · exact tallMasks_rect htfn hts t ht2

lemma vadd_zero_right :
    ∀ (a z : List ℚ), a.length = z.length → (∀ q ∈ z, q = 0) →
      List.zipWith (· + ·) a z = a
  | [], [], _, _ => rfl
  | [], _ :: _, h, _ => by simp at h
  | _ :: _, [], h, _ => by simp at h
  | a0 :: at', z0 :: zt, h, hz => by
    simp only [List.zipWith_cons_cons]
    rw [vadd_zero_right at' zt (by simpa using h) (fun q hq => hz q (by simp [hq])),
      hz z0 (by simp), add_zero]

lemma madd_zero_right :
    ∀ {a z : Mat}, shapeL a = shapeL z → (∀ row ∈ z, ∀ q ∈ row, q = 0) →
      mzip (· + ·) a z = a := by
  intro a
  induction a with
  | nil => intro z h hz; simp [mzip]
  | cons ar at' ih =>
    intro z h hz
    cases z with
    | nil => simp [shapeL] at h
    | cons zr zt =>
      simp only [shapeL, List.map_cons, List.cons.injEq] at h
      simp only [mzip, List.zipWith_cons_cons]
      rw [vadd_zero_right ar zr h.1 (fun q hq => hz zr (by simp) q hq)]
      have := ih (z := zt) (by simpa [shapeL] using h.2)
        (fun row hrow q hq => hz row (List.mem_cons_of_mem _ hrow) q hq)
      simp only [mzip] at this
      rw [this]

/-- Claim C4: for the consensus_ta/consensus_ties modes, if the `k`
threshold taken from the first descriptor is strictly greater than the
number of descriptors, the tall-mask consensus mask is everywhere false,
the trimmed mixed delta is entirely zero, and the final output equals
exactly the base tensor.  The stage equalities name the intermediate
values of `execute`; `hrt` is the shape-preservation contract of the
external `get_tall_mask` primitive at this call. -/
theorem c4_tall_mask_k_above_count {R C : ℕ}
    (cfg : GTAConfig) (sfn : SparsifyFn) (tfn : TallMaskFn) (ie : Bool)
    (bm : ℕ) (tensors : List (ℕ × Mat)) (tp : ℕ → TVParams)
    (tvs : List TVInfo) (base : Mat) (warns : List Warn)
    (mixed1 mixed2 : Mat) (talls : List BMat) (tv0 : TVInfo) (k : ℚ)
    (hsp : cfg.sparsification_method = some SparsificationMethod.consensus_ta
         ∨ cfg.sparsification_method = some SparsificationMethod.consensus_ties)
    (hgtv : get_task_vectors ie bm tensors tp = some (tvs, base, warns))
    (hagg : aggregateStage cfg tvs
        (buildDeltas cfg.sparsification_method cfg.rescale sfn tvs)
        = some mixed1)
    (hlam : lambdaStage cfg tvs mixed1 = some mixed2)
    (htall : tallMasks tfn mixed2 tvs = some talls)
    (hhead : tvs.head? = some tv0)
    (hk : tv0.k = some k)
    (hkn : (tvs.length : ℚ) < k)
    (hrb : rect R C base)
    (hrm : rect R C mixed2)
    (hrt : ∀ t ∈ talls, rect R C t) :
    (∀ row ∈ consensusOfTalls talls k, ∀ b ∈ row, b = false)
    ∧ (∀ r c,
        mAt (mzip (· * ·) mixed2 (maskMat (consensusOfTalls talls k))) r c = 0)
    ∧ execute cfg sfn tfn ie bm tensors tp = some base := by
  have hlen : talls.length = tvs.length := tallMasks_length htall
  have hkn2 : (talls.length : ℚ) < k := by rw [hlen]; exact hkn
  have hfalse := consensusOfTalls_false hkn2
  have htrim0 : ∀ row ∈ mzip (· * ·) mixed2 (maskMat (consensusOfTalls talls k)),
      ∀ q ∈ row, q = 0 := by
    intro row hrow q hq
    obtain ⟨ra, hra, rb, hrb2, rfl⟩ := mem_zipWith_ex hrow
    obtain ⟨a, ha, b, hb, rfl⟩ := mem_zipWith_ex hq
    obtain ⟨row0, hrow0, rfl⟩ := List.mem_map.mp hrb2
    obtain ⟨b0, hb0, rfl⟩ := List.mem_map.mp hb
    rw [hfalse row0 hrow0 b0 hb0]
    norm_num [boolToQ]
  refine ⟨hfalse, fun r c => mAt_zero_of_all htrim0 r c, ?_⟩
  have hne : tvs.isEmpty = false := by
    cases tvs
    · exact absurd hhead (by simp)
    · rfl
  have htvne : talls ≠ [] := by
    intro hn
    rw [hn] at hlen
    cases tvs
    · exact absurd hhead (by simp)
    · simp at hlen
  have hts : tallStage cfg tfn tvs mixed2
      = some (mzip (· * ·) mixed2 (maskMat (consensusOfTalls talls k))) := by
    unfold tallStage
    rw [if_pos hsp, htall]
    simp [hhead, hk]
  have hrtrim : rect R C (mzip (· * ·) mixed2 (maskMat (consensusOfTalls talls k))) := by
    refine rect_mzip _ hrm (rect_maskMat (rect_mapmap _ (rect_stackSum ?_ (by simpa using htvne))))
    intro mm hmm
    obtain ⟨t, ht, rfl⟩ := List.mem_map.mp hmm
    exact rect_maskMat (hrt t ht)
  have hshp : shapeL base
      = shapeL (mzip (· * ·) mixed2 (maskMat (consensusOfTalls talls k))) := by
    unfold shapeL
    rw [rect_shapeL hrb, rect_shapeL hrtrim]
  have hfin := madd_zero_right hshp htrim0
  simp [execute, hgtv, hne, hagg, hlam, hts, hfin]

theorem c4_witness :
    execute ⟨some SparsificationMethod.consensus_ties, some ConsensusMethod.sum,
        false, true, false⟩
      (fun d _ _ _ _ _ => d) (fun d _ _ => d.map (List.map (fun _ => true)))
      false 0 [(0, [[0]]), (1, [[1]])]
      (fun _ => ⟨1, 1, none, none, some 1, some 2⟩)
      = some [[0]] :=
  (c4_tall_mask_k_above_count (R := 1) (C := 1)
    ⟨some SparsificationMethod.consensus_ties, some ConsensusMethod.sum,
        false, true, false⟩
    (fun d _ _ _ _ _ => d) (fun d _ _ => d.map (List.map (fun _ => true)))
    false 0 [(0, [[0]]), (1, [[1]])]
    (fun _ => ⟨1, 1, none, none, some 1, some 2⟩)
    [⟨1, [[1]], 1, 1, none, none, some 1, some 2⟩] [[0]] []
    [[1]] [[1]] [[[true]]] ⟨1, [[1]], 1, 1, none, none, some 1, some 2⟩ 2
    (Or.inr rfl)
    (by norm_num [get_task_vectors, gtv_go, List.lookup, mzip, shapeL, mkTV])
    (by norm_num [aggregateStage, buildDeltas, weightedDeltas, get_mask,
      stackSum, mzip, mzipB, mmap, qsign, castDtype, maskDtypeOf, cmName,
      mixedSummands, divisorSummands, maskMat, boolToQ, guardZero])
    (by norm_num [lambdaStage]; intro h; exact absurd h (by decide))
    (by norm_num [tallMasks])
    rfl rfl (by norm_num)
    (by decide) (by decide) (by decide)).2.2

/-! ### Shape-mismatch policy infrastructure -/

lemma lookup_append_middle {m bm : ℕ} {x : Mat} (hmb : m ≠ bm) :
    ∀ (pre post : List (ℕ × Mat)),
      List.lookup bm (pre ++ (m, x) :: post) = List.lookup bm (pre ++ post)
  | [], post => by
    have hbeq : (bm == m) = false := beq_eq_false_iff_ne.mpr (Ne.symm hmb)
    simp [List.lookup, hbeq]
  | (a, y) :: pre, post => by
    simp only [List.cons_append, List.lookup]
    cases bm == a
    · exact lookup_append_middle hmb pre post
    · rfl

lemma rect_trunc {R C R2 C2 : ℕ} {x : Mat} (hx : rect R2 C2 x)
    (hR : R ≤ R2) (hC : C ≤ C2) : rect R C (trunc x R C) := by
  obtain ⟨h1, h2⟩ := hx
  constructor
  · simp [trunc]
    omega
  · intro row hrow
    simp only [trunc] at hrow
    obtain ⟨row0, hrow0, rfl⟩ := List.mem_map.mp hrow
    have : row0 ∈ x := List.mem_of_mem_take hrow0
    simp [h2 row0 this]
    omega

lemma rect_headD_length {R C : ℕ} {base : Mat} (h : rect R C base)
    (hR : 0 < R) : (base.headD []).length = C := by
  obtain ⟨h1, h2⟩ := h
  cases base with
  | nil => simp at h1; omega
  | cons b0 rest => exact h2 b0 (by simp)

lemma shapeL_eq_of_rect {R C : ℕ} {a b : List (List ℚ)}
    (ha : rect R C a) (hb : rect R C b) : shapeL a = shapeL b := by
  unfold shapeL
  rw [rect_shapeL ha, rect_shapeL hb]

lemma shapeL_ne_of_rect {R C R2 C2 : ℕ} {a b : List (List ℚ)}
    (ha : rect R C a) (hb : rect R2 C2 b) (hR : 0 < R)
    (hne : (R2, C2) ≠ (R, C)) : shapeL b ≠ shapeL a := by
  intro heq
  unfold shapeL at heq
  rw [rect_shapeL ha, rect_shapeL hb] at heq
  have hlen := congrArg List.length heq
  simp at hlen
  cases R with
  | zero => omega
  | succ n =>
    cases R2 with
    | zero => omega
    | succ n2 =>
      rw [List.replicate_succ, List.replicate_succ] at heq
      have hc : C2 = C := (List.cons.injEq _ _ _ _ ▸ heq).1
      exact hne (Prod.ext hlen hc)

lemma gtv_go_true_cons (base : Mat) (bm : ℕ) (tp : ℕ → TVParams)
    (a : ℕ) (y : Mat) (rest : List (ℕ × Mat)) :
    gtv_go true base bm tp ((a, y) :: rest)
      = if a = bm then gtv_go true base bm tp rest
        else if shapeL y = shapeL base then
          (gtv_go true base bm tp rest).map
            (fun r => (mkTV a (mzip (· - ·) y base) (tp a) :: r.1, r.2))
        else
          match bsub (trunc y base.length (base.headD []).length) base with
          | some delta =>
            (gtv_go true base bm tp rest).map
              (fun r => (mkTV a delta (tp a) :: r.1, Warn.submatrix a :: r.2))
          | none => none := by
  simp [gtv_go]

lemma headD_length_of_rect {α : Type} {R C : ℕ} {m : List (List α)}
    (h : rect R C m) : (m.headD []).length = if R = 0 then 0 else C := by
  obtain ⟨h1, h2⟩ := h
  cases m with
  | nil =>
    simp at h1
    simp [← h1]
  | cons r0 rest =>
    simp at h1
    rw [if_neg (by omega)]
    exact h2 r0 (by simp)

lemma mAt_eq_getElem {m : Mat} {i j : ℕ} (hi : i < m.length)
    (hj : j < m[i].length) : mAt m i j = m[i][j] := by
  unfold mAt
  rw [List.getD_eq_getElem _ _ hi, List.getD_eq_getElem _ _ hj]

lemma bcastAt_eq_mAt {R C : ℕ} {m : Mat} (h : rect R C m)
    {i j : ℕ} (hi : i < R) (hj : j < C) : bcastAt m i j = mAt m i j := by
  obtain ⟨h1, h2⟩ := h
  unfold bcastAt
  have e1 : (if m.length = 1 then 0 else i) = i := by
    split_ifs with h0
    · omega
    · rfl
  have e2 : (if (m.headD []).length = 1 then 0 else j) = j := by
    have := headD_length_of_rect ⟨h1, h2⟩
    rw [if_neg (by omega)] at this
    split_ifs with h0
    · omega
    · rfl
  rw [e1, e2]

/-- For equal-shaped rectangular tensors the broadcast subtraction is plain
elementwise subtraction. -/
lemma bsub_eq_mzip_of_rect {R C : ℕ} {a b : Mat} (ha : rect R C a)
    (hb : rect R C b) : bsub a b = some (mzip (· - ·) a b) := by
  have hla : a.length = R := ha.1
  have hlb : b.length = R := hb.1
  have hha := headD_length_of_rect ha
  have hhb := headD_length_of_rect hb
  have hbd1 : broadcastDim a.length b.length = some R := by
    rw [hla, hlb]
    simp [broadcastDim]
  have hbd2 : broadcastDim (a.headD []).length (b.headD []).length
      = some (if R = 0 then 0 else C) := by
    rw [hha, hhb]
    simp [broadcastDim]
  have hmain : bsub a b = some ((List.range R).map (fun r =>
      (List.range (if R = 0 then 0 else C)).map
        (fun c => bcastAt a r c - bcastAt b r c))) := by
    unfold bsub
    rw [hbd1, hbd2]
  rw [hmain]
  congr 1
  apply List.ext_getElem
  · simp [mzip, List.length_zipWith, hla, hlb]
  · intro i h1 h2
    have hiR : i < R := by simpa using h1
    have hC0 : (if R = 0 then 0 else C) = C := if_neg (by omega)
    have hia : i < a.length := by omega
    have hib : i < b.length := by omega
    have hrowa : a[i].length = C := ha.2 _ (List.getElem_mem hia)
    have hrowb : b[i].length = C := hb.2 _ (List.getElem_mem hib)
    simp only [List.getElem_map, List.getElem_range, hC0, mzip]
    rw [List.getElem_zipWith]
    apply List.ext_getElem
    · simp [List.length_zipWith, hrowa, hrowb]
    · intro j hj1 hj2
      have hjC : j < C := by simpa using hj1
      simp only [List.getElem_map, List.getElem_range]
      rw [List.getElem_zipWith,
        bcastAt_eq_mAt ha hiR hjC, bcastAt_eq_mAt hb hiR hjC,
        mAt_eq_getElem hia (by omega), mAt_eq_getElem hib (by omega)]

/-- When the sliced tensor broadcasts against the base with the base's
shape as result, the subtraction succeeds and produces a base-shaped
delta. -/
lemma bsub_bcast_some {R C : ℕ} {x2 b : Mat} (hb : rect R C b) (hR : 0 < R)
    (hbr : broadcastDim x2.length b.length = some b.length)
    (hbc : broadcastDim (x2.headD []).length (b.headD []).length
        = some (b.headD []).length) :
    ∃ d, bsub x2 b = some d ∧ rect R C d := by
  have hmain : bsub x2 b = some ((List.range b.length).map (fun r =>
      (List.range (b.headD []).length).map
        (fun c => bcastAt x2 r c - bcastAt b r c))) := by
    unfold bsub
    rw [hbr, hbc]
  refine ⟨_, hmain, ?_, ?_⟩
  · simp [hb.1]
  · intro row hrow
    obtain ⟨r, hr, rfl⟩ := List.mem_map.mp hrow
    rw [List.length_map, List.length_range]
    exact rect_headD_length hb hR

lemma gtv_go_mem_embed {base : Mat} {bm : ℕ} {tp : ℕ → TVParams} {m : ℕ}
    {x : Mat} {d : Mat} (hmb : m ≠ bm) (hsh : shapeL x ≠ shapeL base)
    (hbs : bsub (trunc x base.length (base.headD []).length) base = some d) :
    ∀ {l : List (ℕ × Mat)} {res : List TVInfo × List Warn},
      gtv_go true base bm tp l = some res → (m, x) ∈ l →
        mkTV m d (tp m) ∈ res.1 ∧ Warn.submatrix m ∈ res.2
  | [], res, h, hmem => absurd hmem (by simp)
  | (a, y) :: rest, res, h, hmem => by
    rw [gtv_go_true_cons] at h
    rcases List.mem_cons.mp hmem with heq | hmem2
    · obtain ⟨rfl, rfl⟩ := Prod.mk.injEq .. ▸ heq.symm
      rw [if_neg hmb, if_neg hsh] at h
      simp only [hbs] at h
      rw [Option.map_eq_some'] at h
      obtain ⟨t, ht, rfl⟩ := h
      exact ⟨by simp, by simp⟩
    · by_cases h1 : a = bm
      · rw [if_pos h1] at h
        exact gtv_go_mem_embed hmb hsh hbs h hmem2
      · rw [if_neg h1] at h
        by_cases h2 : shapeL y = shapeL base
        · rw [if_pos h2, Option.map_eq_some'] at h
          obtain ⟨t, ht, rfl⟩ := h
          have ih := gtv_go_mem_embed hmb hsh hbs ht hmem2
          exact ⟨List.mem_cons_of_mem _ ih.1, ih.2⟩
        · rw [if_neg h2] at h
          cases hbsy : bsub (trunc y base.length (base.headD []).length) base with
          | none =>
            simp only [hbsy] at h
            exact absurd h (by simp)
          | some dy =>
            simp only [hbsy] at h
            rw [Option.map_eq_some'] at h
            obtain ⟨t, ht, rfl⟩ := h
            have ih := gtv_go_mem_embed hmb hsh hbs ht hmem2
            exact ⟨List.mem_cons_of_mem _ ih.1, List.mem_cons_of_mem _ ih.2⟩

/-- If the sliced embed tensor neither matches nor broadcasts against the
base, the model's subtraction errors and the whole extraction fails. -/
lemma gtv_go_none_embed {base : Mat} {bm : ℕ} {tp : ℕ → TVParams} {m : ℕ}
    {x : Mat} (hmb : m ≠ bm) (hsh : shapeL x ≠ shapeL base)
    (hbn : bsub (trunc x base.length (base.headD []).length) base = none) :
    ∀ {l : List (ℕ × Mat)}, (m, x) ∈ l → gtv_go true base bm tp l = none
  | [], hmem => absurd hmem (by simp)
  | (a, y) :: rest, hmem => by
    rw [gtv_go_true_cons]
    rcases List.mem_cons.mp hmem with heq | hmem2
    · obtain ⟨rfl, rfl⟩ := Prod.mk.injEq .. ▸ heq.symm
      rw [if_neg hmb, if_neg hsh]
      simp only [hbn]
    · have ih := @gtv_go_none_embed base bm tp m x hmb hsh hbn rest hmem2
      by_cases h1 : a = bm
      · rw [if_pos h1]
        exact ih
      · rw [if_neg h1]
        by_cases h2 : shapeL y = shapeL base
        · rw [if_pos h2, ih]
          rfl
        · rw [if_neg h2]
          cases hbsy : bsub (trunc y base.length (base.headD []).length) base with
          | none => simp only [hbsy]
          | some dy =>
            simp only [hbsy]
            rw [ih]
            rfl

lemma gtv_go_false_cons (base : Mat) (bm : ℕ) (tp : ℕ → TVParams)
    (a : ℕ) (y : Mat) (rest : List (ℕ × Mat)) :
    gtv_go false base bm tp ((a, y) :: rest)
      = if a = bm then gtv_go false base bm tp rest
        else if shapeL y = shapeL base then
          (gtv_go false base bm tp rest).map
            (fun r => (mkTV a (mzip (· - ·) y base) (tp a) :: r.1, r.2))
        else
          (gtv_go false base bm tp rest).map
            (fun r => (r.1, Warn.skipped a :: r.2)) := by
  simp [gtv_go]

lemma option_map_fst_cons {o1 o2 : Option (List TVInfo × List Warn)}
    (c : TVInfo)
    (h : o1.map (fun r => r.1) = o2.map (fun r => r.1)) :
    (o1.map (fun r => (c :: r.1, r.2))).map (fun r => r.1)
      = (o2.map (fun r => (c :: r.1, r.2))).map (fun r => r.1) := by
  cases o1 <;> cases o2 <;> simp_all

lemma option_map_proj_base {o1 o2 : Option (List TVInfo × List Warn)}
    (base : Mat)
    (h : o1.map (fun r => r.1) = o2.map (fun r => r.1)) :
    (o1.map (fun r => (r.1, base, r.2))).map (fun r => (r.1, r.2.1))
      = (o2.map (fun r => (r.1, base, r.2))).map (fun r => (r.1, r.2.1)) := by
  cases o1 <;> cases o2 <;> simp_all

lemma gtv_go_skip_fst {base : Mat} {bm : ℕ} {tp : ℕ → TVParams} {m : ℕ}
    {x : Mat} {post : List (ℕ × Mat)} (hmb : m ≠ bm)
    (hsh : shapeL x ≠ shapeL base) :
    ∀ pre : List (ℕ × Mat),
      ((gtv_go false base bm tp (pre ++ (m, x) :: post)).map (fun r => r.1))
        = ((gtv_go false base bm tp (pre ++ post)).map (fun r => r.1))
  | [] => by
    simp only [List.nil_append, gtv_go_false_cons, if_neg hmb, if_neg hsh,
      Option.map_map]
    rfl
  | (a, y) :: pre => by
    simp only [List.cons_append, gtv_go_false_cons]
    by_cases h1 : a = bm
    · simp only [if_pos h1]
      exact gtv_go_skip_fst hmb hsh pre
    · by_cases h2 : shapeL y = shapeL base
      · simp only [if_neg h1, if_pos h2]
        exact option_map_fst_cons _
          (@gtv_go_skip_fst base bm tp m x post hmb hsh pre)
      · simp only [if_neg h1, if_neg h2, Option.map_map]
        exact gtv_go_skip_fst hmb hsh pre

lemma gtv_go_skip_mem {base : Mat} {bm : ℕ} {tp : ℕ → TVParams} {m : ℕ}
    {x : Mat} {post : List (ℕ × Mat)} (hmb : m ≠ bm)
    (hsh : shapeL x ≠ shapeL base) :
    ∀ (pre : List (ℕ × Mat)) {res : List TVInfo × List Warn},
      gtv_go false base bm tp (pre ++ (m, x) :: post) = some res →
        Warn.skipped m ∈ res.2
  | [], res, h => by
    simp only [List.nil_append, gtv_go_false_cons, if_neg hmb, if_neg hsh] at h
    rw [Option.map_eq_some'] at h
    obtain ⟨t, ht, rfl⟩ := h
    simp
  | (a, y) :: pre, res, h => by
    simp only [List.cons_append, gtv_go_false_cons] at h
    by_cases h1 : a = bm
    · rw [if_pos h1] at h
      exact gtv_go_skip_mem hmb hsh pre h
    · by_cases h2 : shapeL y = shapeL base
      · rw [if_neg h1, if_pos h2, Option.map_eq_some'] at h
        obtain ⟨t, ht, rfl⟩ := h
        simpa using gtv_go_skip_mem hmb hsh pre ht
      · rw [if_neg h1, if_neg h2, Option.map_eq_some'] at h
        obtain ⟨t, ht, rfl⟩ := h
        simpa using List.mem_cons_of_mem (Warn.skipped a)
          (gtv_go_skip_mem hmb hsh pre ht)

lemma execute_eq_of_same_tvs {cfg : GTAConfig} {sfn : SparsifyFn}
    {tfn : TallMaskFn} {ie : Bool} {bm : ℕ} {tp : ℕ → TVParams}
    {t1 t2 : List (ℕ × Mat)}
    (h : (get_task_vectors ie bm t1 tp).map (fun r => (r.1, r.2.1))
       = (get_task_vectors ie bm t2 tp).map (fun r => (r.1, r.2.1))) :
    execute cfg sfn tfn ie bm t1 tp = execute cfg sfn tfn ie bm t2 tp := by
  cases h1 : get_task_vectors ie bm t1 tp with
  | none =>
    rw [h1] at h
    cases h2 : get_task_vectors ie bm t2 tp with
    | none => simp [execute, h1, h2]
    | some r2 => rw [h2] at h; simp at h
  | some r1 =>
    rw [h1] at h
    cases h2 : get_task_vectors ie bm t2 tp with
    | none => rw [h2] at h; simp at h
    | some r2 =>
      rw [h2] at h
      simp only [Option.map_some', Option.some.injEq, Prod.mk.injEq] at h
      obtain ⟨htv, hb⟩ := h
      simp [execute, h1, h2, htv, hb]

lemma get_task_vectors_skip_proj {bm : ℕ} {tp : ℕ → TVParams} {m : ℕ}
    {x : Mat} {post pre : List (ℕ × Mat)} {base : Mat} (hmb : m ≠ bm)
    (hlk : List.lookup bm (pre ++ (m, x) :: post) = some base)
    (hsh : shapeL x ≠ shapeL base) :
    (get_task_vectors false bm (pre ++ (m, x) :: post) tp).map
        (fun r => (r.1, r.2.1))
      = (get_task_vectors false bm (pre ++ post) tp).map
        (fun r => (r.1, r.2.1)) := by
  have hlk2 : List.lookup bm (pre ++ post) = some base := by
    rw [← lookup_append_middle hmb pre post]
    exact hlk
  unfold get_task_vectors
  rw [hlk, hlk2]
  exact option_map_proj_base base
    (@gtv_go_skip_fst base bm tp m x post hmb hsh pre)

/-- Claim C5 counterexample: for an embedding weight whose model tensor is
SMALLER than the base (2×3 vs 3×3), no descriptor with the base's shape is
produced — the shapes still differ after slicing and the subtraction is a
torch error, so the whole extraction fails. -/
theorem c5_cex_smaller_embed_tensor :
    shapeL ([[1, 1, 1], [1, 1, 1]] : Mat)
        ≠ shapeL ([[0, 0, 0], [0, 0, 0], [0, 0, 0]] : Mat)
    ∧ get_task_vectors true 0
        [(0, [[0, 0, 0], [0, 0, 0], [0, 0, 0]]), (1, [[1, 1, 1], [1, 1, 1]])]
        (fun _ => ⟨1, 1, none, none, none, none⟩) = none := by
  exact ⟨by decide, by decide⟩

/-- Claim C5, amended: for a non-base model whose tensor shape differs from
the base's: (a) if the weight is an embedding and the model tensor is at
least as large as the base on both axes, the model contributes a descriptor
whose delta is the leading sub-block minus the base, of exactly the base's
shape, and a submatrix warning is emitted; (b) if the weight is an
embedding and the sliced tensor instead broadcasts against the base with
the base's shape as result (each mismatched sliced axis has size 1), a
descriptor with a base-shaped broadcast delta is still produced, with a
warning; (c) if the weight is an embedding and the sliced tensor neither
matches nor broadcasts (a mismatched axis of size other than 1), the
subtraction errors and the extraction call fails; (d) if the weight is not
an embedding, the model contributes no descriptor, a skip warning is
emitted, and the merge result equals the merge of the remaining models. -/
theorem c5_shape_mismatch_policy (bm m : ℕ) (x : Mat) (tp : ℕ → TVParams)
    (pre post : List (ℕ × Mat)) (hmb : m ≠ bm) :
    (∀ (base : Mat) (R C R2 C2 : ℕ),
      List.lookup bm (pre ++ (m, x) :: post) = some base →
      0 < R → rect R C base → rect R2 C2 x → R ≤ R2 → C ≤ C2 →
      (R2, C2) ≠ (R, C) →
      ∀ tvs b warns,
        get_task_vectors true bm (pre ++ (m, x) :: post) tp
            = some (tvs, b, warns) →
          mkTV m (mzip (· - ·) (trunc x base.length (base.headD []).length)
              base) (tp m) ∈ tvs
          ∧ Warn.submatrix m ∈ warns
          ∧ shapeL (mzip (· - ·)
              (trunc x base.length (base.headD []).length) base)
              = shapeL base)
    ∧ (∀ (base : Mat) (R C : ℕ),
      List.lookup bm (pre ++ (m, x) :: post) = some base →
      0 < R → rect R C base →
      shapeL x ≠ shapeL base →
      broadcastDim (trunc x base.length (base.headD []).length).length
          base.length = some base.length →
      broadcastDim ((trunc x base.length (base.headD []).length).headD
          []).length (base.headD []).length = some (base.headD []).length →
      ∀ tvs b warns,
        get_task_vectors true bm (pre ++ (m, x) :: post) tp
            = some (tvs, b, warns) →
          ∃ d, bsub (trunc x base.length (base.headD []).length) base
              = some d
            ∧ rect R C d ∧ mkTV m d (tp m) ∈ tvs
            ∧ Warn.submatrix m ∈ warns)
    ∧ (∀ base : Mat,
      List.lookup bm (pre ++ (m, x) :: post) = some base →
      shapeL x ≠ shapeL base →
      bsub (trunc x base.length (base.headD []).length) base = none →
      get_task_vectors true bm (pre ++ (m, x) :: post) tp = none)
    ∧ (∀ base : Mat,
      List.lookup bm (pre ++ (m, x) :: post) = some base →
      shapeL x ≠ shapeL base →
      ((get_task_vectors false bm (pre ++ (m, x) :: post) tp).map
          (fun r => (r.1, r.2.1))
        = (get_task_vectors false bm (pre ++ post) tp).map
          (fun r => (r.1, r.2.1)))
      ∧ (∀ tvs b warns,
          get_task_vectors false bm (pre ++ (m, x) :: post) tp
              = some (tvs, b, warns) →
            Warn.skipped m ∈ warns)
      ∧ (∀ (cfg : GTAConfig) (sfn : SparsifyFn) (tfn : TallMaskFn),
          execute cfg sfn tfn false bm (pre ++ (m, x) :: post) tp
            = execute cfg sfn tfn false bm (pre ++ post) tp)) := by
  refine ⟨?_, ?_, ?_, ?_⟩
  · intro base R C R2 C2 hlk hRpos hrb hrx hRl hCl hne tvs b warns hsome
    have hshx : shapeL x ≠ shapeL base := shapeL_ne_of_rect hrb hrx hRpos hne
    have hbl : base.length = R := hrb.1
    have hhd : (base.headD []).length = C := rect_headD_length hrb hRpos
    have htr : rect R C (trunc x base.length (base.headD []).length) := by
      rw [hbl, hhd]
      exact rect_trunc hrx hRl hCl
    have hbs : bsub (trunc x base.length (base.headD []).length) base
        = some (mzip (· - ·) (trunc x base.length (base.headD []).length)
            base) := bsub_eq_mzip_of_rect htr hrb
    unfold get_task_vectors at hsome
    rw [hlk] at hsome
    rw [Option.map_eq_some'] at hsome
    obtain ⟨t, ht, heq⟩ := hsome
    have htvs : tvs = t.1 := by
      have := congrArg (fun r => r.1) heq
      simpa using this.symm
    have hwarns : warns = t.2 := by
      have := congrArg (fun r => r.2.2) heq
      simpa using this.symm
    subst htvs
    subst hwarns
    have hmem := gtv_go_mem_embed hmb hshx hbs ht (by simp)
    exact ⟨hmem.1, hmem.2, shapeL_eq_of_rect (rect_mzip _ htr hrb) hrb⟩
  · intro base R C hlk hRpos hrb hshx hbr hbc tvs b warns hsome
    obtain ⟨d, hbs, hrd⟩ := bsub_bcast_some hrb hRpos hbr hbc
    unfold get_task_vectors at hsome
    rw [hlk] at hsome
    rw [Option.map_eq_some'] at hsome
    obtain ⟨t, ht, heq⟩ := hsome
    have htvs : tvs = t.1 := by
      have := congrArg (fun r => r.1) heq
      simpa using this.symm
    have hwarns : warns = t.2 := by
      have := congrArg (fun r => r.2.2) heq
      simpa using this.symm
    subst htvs
    subst hwarns
    have hmem := gtv_go_mem_embed hmb hshx hbs ht (by simp)
    exact ⟨d, hbs, hrd, hmem.1, hmem.2⟩
  · intro base hlk hshx hbn
    have hgo : gtv_go true base bm tp (pre ++ (m, x) :: post) = none :=
      gtv_go_none_embed hmb hshx hbn (by simp)
    unfold get_task_vectors
    rw [hlk]
    simp [hgo]
  · intro base hlk hshb
    refine ⟨get_task_vectors_skip_proj hmb hlk hshb, ?_, ?_⟩
    · intro tvs b warns hsome
      unfold get_task_vectors at hsome
      rw [hlk] at hsome
      rw [Option.map_eq_some'] at hsome
      obtain ⟨t, ht, heq⟩ := hsome
      have hwarns : warns = t.2 := by
        have := congrArg (fun r => r.2.2) heq
        simpa using this.symm
      subst hwarns
      exact gtv_go_skip_mem hmb hshb pre ht
    · intro cfg sfn tfn
      exact execute_eq_of_same_tvs (get_task_vectors_skip_proj hmb hlk hshb)

theorem c5_witness :
    execute ⟨none, none, false, true, false⟩ (fun d _ _ _ _ _ => d)
        (fun _ _ _ => []) false 0
        [(0, [[1, 2], [3, 4]]), (1, [[9]])]
        (fun _ => ⟨1, 1, none, none, none, none⟩)
      = execute ⟨none, none, false, true, false⟩ (fun d _ _ _ _ _ => d)
        (fun _ _ _ => []) false 0 [(0, [[1, 2], [3, 4]])]
        (fun _ => ⟨1, 1, none, none, none, none⟩) :=
  ((c5_shape_mismatch_policy 0 1 [[9]]
      (fun _ => ⟨1, 1, none, none, none, none⟩)
      [(0, [[1, 2], [3, 4]])] [] (by decide)).2.2.2
    [[1, 2], [3, 4]] (by decide) (by decide)).2.2
    ⟨none, none, false, true, false⟩ (fun d _ _ _ _ _ => d) (fun _ _ _ => [])
